import Mathlib

/-!
Verification of the site crawler engine (crawler.js) and its transport
shim (index.js), as a shallow embedding: URL handling becomes pure
functions on character lists, the BFS crawl loop becomes a fuel-indexed
transition function over an explicit crawl state, and the HTTP request
handlers become pure validation functions.  The browser, the in-page DOM
extraction and the cookie store are external collaborators; they are
modelled by an environment mapping each URL to the outcome of visiting it.
-/

namespace SiteCrawler

/-- A parsed URL, holding the pieces of the WHATWG `URL` object that
crawler.js reads and writes: `scheme://host` followed by the pathname,
the search part (with its leading question mark) and the hash part (with
its leading hash sign). -/
structure URLRec where
  scheme : List Char
  host : List Char
  pathname : List Char
  search : List Char
  hash : List Char
deriving DecidableEq

/-- Characters that end the host component of a URL. -/
def hostEnd (c : Char) : Bool := c = '/' || c = '?' || c = '#'

/-- Characters that end the pathname component of a URL. -/
def pathEnd (c : Char) : Bool := c = '?' || c = '#'

/-- Parsing a URL string into its components, modelling `new URL(u)`:
an alphabetic scheme, the literal `://`, a non-empty host running to the
first `/`, `?` or `#`, then pathname, search and hash.  A string not of
this shape fails to parse (modelling the `TypeError` thrown by `new URL`). -/
def parseURLChars (cs : List Char) : Option URLRec :=
  if cs.takeWhile Char.isAlpha = [] then none
  else
    match cs.dropWhile Char.isAlpha with
    | c1 :: c2 :: c3 :: r2 =>
      if c1 = ':' ∧ c2 = '/' ∧ c3 = '/' then
        if r2.takeWhile (fun c => !hostEnd c) = [] then none
        else
          some ⟨cs.takeWhile Char.isAlpha,
                r2.takeWhile (fun c => !hostEnd c),
                ((r2.dropWhile (fun c => !hostEnd c)).takeWhile (fun c => !pathEnd c)),
                (((r2.dropWhile (fun c => !hostEnd c)).dropWhile
                    (fun c => !pathEnd c)).takeWhile (fun c => c ≠ '#')),
                (((r2.dropWhile (fun c => !hostEnd c)).dropWhile
                    (fun c => !pathEnd c)).dropWhile (fun c => c ≠ '#'))⟩
      else none
    | _ => none

/-- Serializing a parsed URL back to characters (`url.toString()`). -/
def urlToChars (r : URLRec) : List Char :=
  r.scheme ++ [':', '/', '/'] ++ r.host ++ r.pathname ++ r.search ++ r.hash

/-- The origin of a parsed URL (`url.origin`): scheme and host. -/
def origin (r : URLRec) : List Char := r.scheme ++ [':', '/', '/'] ++ r.host

/-- The record update performed by `normalizeUrl` on a successfully
parsed URL: drop the hash, set an empty pathname to `/`. -/
def normRec (r : URLRec) : URLRec :=
  { r with hash := [],
           pathname := if r.pathname = [] then ['/'] else r.pathname }

/-- crawler.js `normalizeUrl`: parse the URL, drop its hash, set an empty
pathname to `/`, and serialize; on a parse failure return the input
string unchanged. -/
def normalizeUrl (u : String) : String :=
  match parseURLChars u.data with
  | none => u
  | some r => String.mk (urlToChars (normRec r))

/-- crawler.js `sameOrigin`: compare the origins of two URL strings,
treating any parse failure as `false`. -/
def sameOrigin (a b : String) : Bool :=
  match parseURLChars a.data, parseURLChars b.data with
  | some ra, some rb => origin ra == origin rb
  | _, _ => false

/-- Prefix test on character lists. -/
def startsWithChars : List Char → List Char → Bool
  | _, [] => true
  | [], _ :: _ => false
  | c :: cs, p :: ps => c = p && startsWithChars cs ps

/-- crawler.js `isCrawlable`: a falsy (empty) href is not crawlable, and
neither is one whose lowercased form starts with `mailto:`, `tel:` or
`javascript:`; everything else is. -/
def isCrawlable (href : String) : Bool :=
  if href.data = [] then false
  else
    let h := href.data.map Char.toLower
    !(startsWithChars h "mailto:".data || startsWithChars h "tel:".data ||
      startsWithChars h "javascript:".data)

/-! ### The crawl engine (crawler.js `crawlSite`) -/

/-- The per-run options of crawler.js: `DEFAULTS` merged with an optional
`maxDepth` override.  The fields that do not influence the crawl loop's
control flow (politeness delay, navigation timeout, headless flag) are
carried along as plain data. -/
structure Opts where
  maxDepth : Int
  maxPages : Nat
  sameOriginOnly : Bool
  requestDelayMs : Nat
  navigationTimeoutMs : Nat
  headless : Bool
deriving DecidableEq

/-- crawler.js `DEFAULTS`. -/
def DEFAULTS : Opts :=
  { maxDepth := 1, maxPages := 100, sameOriginOnly := true,
    requestDelayMs := 250, navigationTimeoutMs := 30000, headless := true }

/-- The option merge at the top of `crawlSite`: defaults, with `maxDepth`
overridden exactly when the caller passed a number. -/
def crawlOpts (maxDepth : Option Int) : Opts :=
  match maxDepth with
  | some d => { DEFAULTS with maxDepth := d }
  | none => DEFAULTS

/-- What the external environment (browser plus target site) does when
the crawler navigates a fresh page to a URL: `navFail` is a rejection of
`page.goto` (carrying `e.message` and the best-effort `page.url()`),
`evalCrash` is an exception thrown after a successful navigation by the
in-page extraction (`page.evaluate`) or the cookie read, and `page` is a
fully successful visit yielding the final URL, the nullable HTTP status
and the extracted link hrefs (the rest of the extraction record does not
influence the crawl loop). -/
inductive VisitOutcome where
  | navFail (msg : String) (pageUrl : String)
  | evalCrash (msg : String)
  | page (finalUrl : String) (status : Option Nat) (links : List String)
deriving DecidableEq

/-- The environment one crawl run works against. -/
def Web := String → VisitOutcome

/-- The slice of a crawler.js page record observed by the claims:
requested URL, final URL, nullable HTTP status, the error message of a
degraded record (`none` on a successful visit, where the record carries
the full extraction instead) and the extracted link hrefs. -/
structure PageRecord where
  urlRequested : String
  urlFinal : String
  status : Option Nat
  error : Option String
  links : List String
deriving DecidableEq

/-- An entry of the BFS queue. -/
structure FrontierEntry where
  url : String
  depth : Nat
deriving DecidableEq

/-- The mutable state of one run of `crawlSite`: the visited set (as its
insertion-ordered duplicate-free list of normalized URLs), the page
records in processing order, the BFS queue, the processed counter, and a
count of the per-visit pages (tabs) opened and closed so far. -/
structure CrawlState where
  visited : List String
  pages : List PageRecord
  queue : List FrontierEntry
  processed : Nat
  opened : Nat
  closed : Nat
deriving DecidableEq

/-- The JS `Set.add` as used on the visited set: append only when absent. -/
def setAdd (l : List String) (x : String) : List String :=
  if l.contains x then l else l ++ [x]

/-- The enqueue loop of `crawlSite` (for each extracted link: skip it
when it is not crawlable, skip it when same-origin mode is on and it is
cross-origin, and push it at the next depth only when its normalized form
is not yet in the visited set). -/
def enqueueChildren (opts : Opts) (baseOrigin : String) (visited : List String)
    (nextDepth : Nat) : List String → List FrontierEntry
  | [] => []
  | l :: ls =>
    if !isCrawlable l then enqueueChildren opts baseOrigin visited nextDepth ls
    else if opts.sameOriginOnly && !sameOrigin l baseOrigin then
      enqueueChildren opts baseOrigin visited nextDepth ls
    else if !(visited.contains (normalizeUrl l)) then
      ⟨l, nextDepth⟩ :: enqueueChildren opts baseOrigin visited nextDepth ls
    else enqueueChildren opts baseOrigin visited nextDepth ls

/-- The outcome of one iteration body of the crawl loop. -/
inductive StepOut where
  | cont (st : CrawlState)
  | crashed (msg : String) (st : CrawlState)
deriving DecidableEq

/-- The state carried by a step outcome. -/
def StepOut.state : StepOut → CrawlState
  | .cont st => st
  | .crashed _ st => st

/-- One body execution of the while loop of `crawlSite`, given the entry
just shifted off the queue and the remaining queue: depth and
de-duplication check, origin check, mark-and-count, open a page, navigate
(on failure append a degraded record, close the page and continue; an
extraction or cookie exception escapes with the page still open), append
the full record, enqueue children within the depth budget, close the
page. -/
def crawlStep (web : Web) (opts : Opts) (baseOrigin : String)
    (e : FrontierEntry) (rest : List FrontierEntry) (st : CrawlState) : StepOut :=
  let normalized := normalizeUrl e.url
  if ((e.depth : Int) > opts.maxDepth : Bool) || st.visited.contains normalized then
    .cont { st with queue := rest }
  else if opts.sameOriginOnly && !sameOrigin e.url baseOrigin then
    .cont { st with queue := rest }
  else
    let st1 : CrawlState :=
      { st with queue := rest,
                visited := setAdd st.visited normalized,
                processed := st.processed + 1,
                opened := st.opened + 1 }
    match web e.url with
    | .navFail msg pageUrl =>
      .cont { st1 with
              pages := st1.pages ++
                [⟨e.url, if pageUrl = "" then e.url else pageUrl, none, some msg, []⟩],
              closed := st1.closed + 1 }
    | .evalCrash msg => .crashed msg st1
    | .page finalUrl status links =>
      let children :=
        if ((e.depth : Int) + 1 ≤ opts.maxDepth : Bool) then
          enqueueChildren opts baseOrigin (setAdd st.visited normalized)
            (e.depth + 1) links
        else []
      .cont { st1 with
              pages := st1.pages ++ [⟨e.url, finalUrl, status, none, links⟩],
              queue := rest ++ children,
              closed := st1.closed + 1 }

/-- A finished crawl loop: either a normal exit or an exception that
escaped the loop (carrying the state at that moment). -/
inductive RunResult where
  | done (st : CrawlState)
  | crashed (msg : String) (st : CrawlState)
deriving DecidableEq

/-- The state carried by a run result. -/
def RunResult.state : RunResult → CrawlState
  | .done st => st
  | .crashed _ st => st

/-- The while loop of `crawlSite` as a fuel-indexed function: `none`
means the fuel ran out; `some (.done st)` that the loop exited normally
(queue empty, or page budget reached before shifting); `some (.crashed m
st)` that an extraction or cookie exception escaped the loop. -/
def crawlLoop (web : Web) (opts : Opts) (baseOrigin : String) :
    Nat → CrawlState → Option RunResult
  | 0, st =>
    match st.queue with
    | [] => some (.done st)
    | _ :: _ => if opts.maxPages ≤ st.processed then some (.done st) else none
  | n + 1, st =>
    match st.queue with
    | [] => some (.done st)
    | e :: rest =>
      if opts.maxPages ≤ st.processed then some (.done st)
      else
        match crawlStep web opts baseOrigin e rest st with
        | .cont st2 => crawlLoop web opts baseOrigin n st2
        | .crashed m st2 => some (.crashed m st2)

/-- The initial state of a run: empty visited set and output, the seed at
depth 0 in the queue, counters at zero. -/
def initState (baseUrl : String) : CrawlState :=
  ⟨[], [], [⟨baseUrl, 0⟩], 0, 0, 0⟩

/-- The `stats` block of the returned site model. -/
structure SiteStats where
  uniqueVisited : Nat
  processed : Nat
deriving DecidableEq

/-- The site model returned by `crawlSite`. -/
structure SiteModel where
  baseUrl : String
  maxDepth : Int
  maxPages : Nat
  pages : List PageRecord
  stats : SiteStats
deriving DecidableEq

/-- crawler.js `crawlSite`, as a function of the environment and a fuel
bound for its loop: compute the base origin (failing like `new URL` when
the base URL is malformed), run the loop from the initial state and
assemble the site model; an exception that escaped the loop propagates to
the caller as an error after the `finally` teardown. -/
def crawlSite (web : Web) (baseUrl : String) (maxDepth : Option Int)
    (fuel : Nat) : Option (Except String SiteModel) :=
  match parseURLChars baseUrl.data with
  | none => some (.error "Invalid URL")
  | some rb =>
    match crawlLoop web (crawlOpts maxDepth) (String.mk (origin rb)) fuel
        (initState baseUrl) with
    | none => none
    | some (.done st) =>
      some (.ok ⟨baseUrl, (crawlOpts maxDepth).maxDepth, (crawlOpts maxDepth).maxPages,
                 st.pages, ⟨st.visited.length, st.processed⟩⟩)
    | some (.crashed m _) => some (.error m)

/-! ### The transport shim (index.js) -/

/-- A JSON-ish value as delivered by the Express body parser. -/
inductive JsVal where
  | str (s : String)
  | num (q : Rat)
  | boolean (b : Bool)
  | null
deriving DecidableEq

/-- The value of a non-empty run of leading decimal digits. -/
def digitsVal (cs : List Char) : Option Nat :=
  let ds := cs.takeWhile Char.isDigit
  if ds = [] then none
  else some (ds.foldl (fun a c => a * 10 + (c.toNat - 48)) 0)

/-- JavaScript `parseInt(s, 10)`: skip leading whitespace, read an
optional sign and the leading decimal digits; `none` models `NaN`. -/
def parseIntJS (s : String) : Option Int :=
  match s.data.dropWhile (fun c => c = ' ' || c = '\t' || c = '\n' || c = '\r') with
  | '-' :: rest => (digitsVal rest).map (fun n => -(n : Int))
  | '+' :: rest => (digitsVal rest).map (fun n => (n : Int))
  | cs => (digitsVal cs).map (fun n => (n : Int))

/-- The GET /crawl handler of index.js up to the point where it invokes
the crawl engine: validate the query parameters and return either the 400
error message or the `(baseurl, maxdepth)` pair handed to `crawlSite`
(an absent or empty `baseurl` is falsy; `maxdepth` is `parseInt`-ed and
rejected only when that yields `NaN`). -/
def getCrawlValidate (baseurl : Option String) (maxdepthRaw : Option String) :
    Except String (String × Option Int) :=
  match baseurl with
  | none => .error "baseurl query parameter is required and must be a string"
  | some b =>
    if b = "" then .error "baseurl query parameter is required and must be a string"
    else
      match maxdepthRaw with
      | none => .ok (b, none)
      | some raw =>
        match parseIntJS raw with
        | none => .error "maxdepth, if provided, must be a number"
        | some n => .ok (b, some n)

/-- The POST /crawl handler of index.js up to the point where it invokes
the crawl engine: `baseurl` must be a truthy string, `maxdepth`, if
present, must be of number type; any number (negative or fractional) is
accepted. -/
def postCrawlValidate (baseurl : Option JsVal) (maxdepth : Option JsVal) :
    Except String (String × Option Rat) :=
  match baseurl with
  | some (.str b) =>
    if b = "" then .error "baseurl is required and must be a string"
    else
      match maxdepth with
      | none => .ok (b, none)
      | some (.num q) => .ok (b, some q)
      | some _ => .error "maxdepth, if provided, must be a number"
  | _ => .error "baseurl is required and must be a string"

/-! ### Concrete environments for the scenario claims -/

/-- A site whose seed page links only to itself (a one-page cycle). -/
def webSelf : Web := fun u =>
  if u = "https://a.com/" then .page "https://a.com/" (some 200) ["https://a.com/"]
  else .navFail "net::ERR_NAME_NOT_RESOLVED" ""

/-- A site where every page links back to the seed (a cyclic graph). -/
def webCyclic : Web := fun u =>
  if u = "https://a.com/" then
    .page "https://a.com/" (some 200) ["https://a.com/b", "https://a.com/c"]
  else .page u (some 200) ["https://a.com/"]

/-- A site whose seed links to three further same-origin pages without
further links. -/
def webFanOut : Web := fun u =>
  if u = "https://a.com/" then
    .page "https://a.com/" (some 200)
      ["https://a.com/b", "https://a.com/c", "https://a.com/d"]
  else .page u (some 200) []

/-- A site whose seed navigation times out. -/
def webTimeout : Web := fun _ =>
  .navFail "Timeout 30000ms exceeded." ""

/-- A site whose seed page crashes the in-page extraction. -/
def webCrash : Web := fun _ =>
  .evalCrash "Execution context was destroyed"

/-! ### Parsing invariants and the serialization round trip -/

lemma takeWhile_append_all {α : Type} {p : α → Bool} {l m : List α}
    (h : ∀ a ∈ l, p a = true) :
    List.takeWhile p (l ++ m) = l ++ List.takeWhile p m := by
  induction l with
  | nil => simp
  | cons x xs ih =>
    simp only [List.cons_append, List.takeWhile_cons_of_pos (h x (by simp))]
    rw [ih (fun a ha => h a (by simp [ha]))]

lemma dropWhile_append_all {α : Type} {p : α → Bool} {l m : List α}
    (h : ∀ a ∈ l, p a = true) :
    List.dropWhile p (l ++ m) = List.dropWhile p m := by
  induction l with
  | nil => simp
  | cons x xs ih =>
    simp only [List.cons_append, List.dropWhile_cons_of_pos (h x (by simp))]
    exact ih (fun a ha => h a (by simp [ha]))

lemma dropWhile_head_false {α : Type} {p : α → Bool} {l : List α} {x : α}
    {xs : List α} (h : List.dropWhile p l = x :: xs) : p x = false := by
  induction l with
  | nil => simp at h
  | cons y ys ih =>
    by_cases hy : p y = true
    · rw [List.dropWhile_cons_of_pos hy] at h; exact ih h
    · rw [List.dropWhile_cons_of_neg hy] at h
      cases h; simpa using hy

/-- The well-formedness facts that hold of every successfully parsed URL. -/
structure URLInv (r : URLRec) : Prop where
  scheme_ne : r.scheme ≠ []
  scheme_alpha : ∀ c ∈ r.scheme, c.isAlpha = true
  host_ne : r.host ≠ []
  host_ok : ∀ c ∈ r.host, hostEnd c = false
  path_ok : ∀ c ∈ r.pathname, pathEnd c = false
  path_head : r.pathname = [] ∨ ∃ t, r.pathname = '/' :: t
  search_ok : ∀ c ∈ r.search, c ≠ '#'
  search_head : r.search = [] ∨ ∃ t, r.search = '?' :: t

lemma parse_inv {cs : List Char} {r : URLRec}
    (h : parseURLChars cs = some r) : URLInv r := by
  unfold parseURLChars at h
  split at h
  · exact absurd h (by simp)
  rename_i hscheme
  split at h
  case _ c1 c2 c3 r2 heq =>
    split at h
    rotate_left
    · exact absurd h (by simp)
    rename_i hc123
    obtain ⟨rfl, rfl, rfl⟩ := hc123
    split at h
    · exact absurd h (by simp)
    rename_i hhost
    injection h with h
    subst h
    refine ⟨hscheme, ?_, hhost, ?_, ?_, ?_, ?_, ?_⟩
    · intro c hc
      exact List.mem_takeWhile_imp hc
    · intro c hc
      have hp : (fun c => !hostEnd c) c = true :=
        List.mem_takeWhile_imp (p := fun c => !hostEnd c) (l := r2) hc
      simpa using hp
    · intro c hc
      have hp : (fun c => !pathEnd c) c = true :=
        List.mem_takeWhile_imp (p := fun c => !pathEnd c)
          (l := r2.dropWhile (fun c => !hostEnd c)) hc
      simpa using hp
    · rcases hp : (r2.dropWhile (fun c => !hostEnd c)).takeWhile (fun c => !pathEnd c)
          with _ | ⟨p0, p1⟩
      · exact Or.inl rfl
      right
      rcases hdw : r2.dropWhile (fun c => !hostEnd c) with _ | ⟨q0, q1⟩
      · rw [hdw] at hp; simp at hp
      rw [hdw] at hp
      have hq : (fun c => !hostEnd c) q0 = false :=
        dropWhile_head_false (p := fun c => !hostEnd c) hdw
      have hq2 : hostEnd q0 = true := by simpa using hq
      have hq3 : (q0 = '/' ∨ q0 = '?') ∨ q0 = '#' := by
        simpa [hostEnd] using hq2
      rcases hq3 with (rfl | rfl) | rfl
      · rw [List.takeWhile_cons_of_pos (p := fun c => !pathEnd c)
          (by simp [pathEnd])] at hp
        injection hp with hp0 hp1
        exact ⟨p1, by rw [hp0]⟩
      · rw [List.takeWhile_cons_of_neg (p := fun c => !pathEnd c)
          (by simp [pathEnd])] at hp
        simp at hp
      · rw [List.takeWhile_cons_of_neg (p := fun c => !pathEnd c)
          (by simp [pathEnd])] at hp
        simp at hp
    · intro c hc
      have hp : (fun c => decide (c ≠ '#')) c = true :=
        List.mem_takeWhile_imp (p := fun c => decide (c ≠ '#'))
          (l := (r2.dropWhile (fun c => !hostEnd c)).dropWhile (fun c => !pathEnd c)) hc
      simpa using hp
    · rcases hp : ((r2.dropWhile (fun c => !hostEnd c)).dropWhile
          (fun c => !pathEnd c)).takeWhile (fun c => c ≠ '#') with _ | ⟨p0, p1⟩
      · exact Or.inl rfl
      right
      rcases hdw : (r2.dropWhile (fun c => !hostEnd c)).dropWhile (fun c => !pathEnd c)
          with _ | ⟨q0, q1⟩
      · rw [hdw] at hp; simp at hp
      rw [hdw] at hp
      have hq : (fun c => !pathEnd c) q0 = false :=
        dropWhile_head_false (p := fun c => !pathEnd c) hdw
      have hq2 : pathEnd q0 = true := by simpa using hq
      have hq3 : q0 = '?' ∨ q0 = '#' := by
        simpa [pathEnd] using hq2
      rcases hq3 with rfl | rfl
      · rw [List.takeWhile_cons_of_pos (p := fun c => decide (c ≠ '#'))
          (by simp)] at hp
        injection hp with hp0 hp1
        exact ⟨p1, by rw [hp0]⟩
      · rw [List.takeWhile_cons_of_neg (p := fun c => decide (c ≠ '#'))
          (by simp)] at hp
        simp at hp
  · exact absurd h (by simp)

lemma parse_urlToChars {r : URLRec} (hinv : URLInv r) (hhash : r.hash = [])
    (hpath : ∃ t, r.pathname = '/' :: t) :
    parseURLChars (urlToChars r) = some r := by
  obtain ⟨sc, ho, pa, se, ha⟩ := r
  obtain ⟨hscne, hscal, hhone, hhook, hpaok, -, hseok, hsehead⟩ := hinv
  simp only at hscne hscal hhone hhook hpaok hseok hsehead
  obtain ⟨t, rfl⟩ : ∃ t, pa = '/' :: t := by simpa using hpath
  have hha : ha = [] := by simpa using hhash
  subst hha
  have htw : (urlToChars ⟨sc, ho, '/' :: t, se, []⟩).takeWhile Char.isAlpha = sc := by
    unfold urlToChars
    simp only [List.append_assoc, List.cons_append, List.append_nil, List.nil_append]
    rw [takeWhile_append_all hscal]
    rw [List.takeWhile_cons_of_neg (p := Char.isAlpha) (by decide)]
    simp
  have hdw : (urlToChars ⟨sc, ho, '/' :: t, se, []⟩).dropWhile Char.isAlpha
      = ':' :: '/' :: '/' :: (ho ++ '/' :: (t ++ se)) := by
    unfold urlToChars
    simp only [List.append_assoc, List.cons_append, List.append_nil, List.nil_append]
    rw [dropWhile_append_all hscal]
    rw [List.dropWhile_cons_of_neg (p := Char.isAlpha) (by decide)]
  have hhotw : (ho ++ '/' :: (t ++ se)).takeWhile (fun c => !hostEnd c) = ho := by
    rw [takeWhile_append_all (by intro a haa; simp [hhook a haa])]
    rw [List.takeWhile_cons_of_neg (p := fun c => !hostEnd c) (by simp [hostEnd])]
    simp
  have hhodw : (ho ++ '/' :: (t ++ se)).dropWhile (fun c => !hostEnd c)
      = '/' :: (t ++ se) := by
    rw [dropWhile_append_all (by intro a haa; simp [hhook a haa])]
    rw [List.dropWhile_cons_of_neg (p := fun c => !hostEnd c) (by simp [hostEnd])]
  have hpatw : ('/' :: (t ++ se)).takeWhile (fun c => !pathEnd c) = '/' :: t := by
    rw [← List.cons_append, takeWhile_append_all (by intro a haa; simp [hpaok a haa])]
    rcases hsehead with rfl | ⟨t2, rfl⟩
    · simp
    · rw [List.takeWhile_cons_of_neg (p := fun c => !pathEnd c) (by simp [pathEnd])]
      simp
  have hpadw : ('/' :: (t ++ se)).dropWhile (fun c => !pathEnd c) = se := by
    rw [← List.cons_append, dropWhile_append_all (by intro a haa; simp [hpaok a haa])]
    rcases hsehead with rfl | ⟨t2, rfl⟩
    · simp
    · rw [List.dropWhile_cons_of_neg (p := fun c => !pathEnd c) (by simp [pathEnd])]
  have hsetw : se.takeWhile (fun c => c ≠ '#') = se := by
    have := takeWhile_append_all (l := se) (m := ([] : List Char))
      (p := fun c => decide (c ≠ '#')) (by intro a haa; simp [hseok a haa])
    simpa using this
  have hsedw : se.dropWhile (fun c => c ≠ '#') = [] := by
    have := dropWhile_append_all (l := se) (m := ([] : List Char))
      (p := fun c => decide (c ≠ '#')) (by intro a haa; simp [hseok a haa])
    simpa using this
  unfold parseURLChars
  rw [htw, hdw]
  rw [if_neg hscne]
  simp [hhotw, hhodw, hpatw, hpadw, hsetw, hsedw, hhone]
  intro x hx
  exact hseok x hx

lemma normRec_inv {r : URLRec} (hinv : URLInv r) :
    URLInv (normRec r) ∧ (normRec r).hash = [] ∧
      ∃ t, (normRec r).pathname = '/' :: t := by
  obtain ⟨hscne, hscal, hhone, hhook, hpaok, hpahead, hseok, hsehead⟩ := hinv
  unfold normRec
  rcases hpahead with hpa | ⟨t, hpa⟩
  · refine ⟨⟨hscne, hscal, hhone, hhook, ?_, ?_, hseok, hsehead⟩, rfl, ?_⟩
    · intro c hc
      simp only [hpa, if_pos rfl] at hc
      simp at hc
      subst hc
      simp [pathEnd]
    · refine Or.inr ⟨[], ?_⟩
      simp [hpa]
    · refine ⟨[], ?_⟩
      simp [hpa]
  · have hne : r.pathname ≠ [] := by simp [hpa]
    refine ⟨⟨hscne, hscal, hhone, hhook, ?_, ?_, hseok, hsehead⟩, rfl, ?_⟩
    · intro c hc
      simp only [if_neg hne] at hc
      exact hpaok c hc
    · simp only [if_neg hne]
      exact Or.inr ⟨t, hpa⟩
    · simp only [if_neg hne]
      exact ⟨t, hpa⟩

lemma normalizeUrl_mk (r : URLRec) (hinv : URLInv r) :
    normalizeUrl (String.mk (urlToChars (normRec r)))
      = String.mk (urlToChars (normRec r)) := by
  obtain ⟨hinv2, hhash2, hpath2⟩ := normRec_inv hinv
  have hparse : parseURLChars (urlToChars (normRec r)) = some (normRec r) :=
    parse_urlToChars hinv2 hhash2 hpath2
  have hfix : normRec (normRec r) = normRec r := by
    have h1 : (normRec r).pathname ≠ [] := by
      obtain ⟨t, hpa⟩ := hpath2
      simp [hpa]
    show ({ scheme := (normRec r).scheme, host := (normRec r).host,
            pathname := if (normRec r).pathname = [] then ['/']
                        else (normRec r).pathname,
            search := (normRec r).search, hash := [] } : URLRec) = normRec r
    rw [if_neg h1, ← hhash2]
  unfold normalizeUrl
  simp only [String.data]
  rw [hparse]
  show String.mk (urlToChars (normRec (normRec r))) = String.mk (urlToChars (normRec r))
  rw [hfix]

/-- C6: `normalizeUrl` strips the fragment and guarantees a non-empty
pathname on every well-formed URL, returns a malformed URL unchanged
(normalization is total and never raises), and two URLs differing only by
a fragment normalize to the same string. -/
theorem C6_normalize_best_effort :
    (∀ u : String, parseURLChars u.data = none → normalizeUrl u = u) ∧
    (∀ (u : String) (r : URLRec), parseURLChars u.data = some r →
      ∃ r2 : URLRec, parseURLChars (normalizeUrl u).data = some r2 ∧
        r2.hash = [] ∧ r2.pathname ≠ []) ∧
    normalizeUrl "https://a.com/x#foo" = normalizeUrl "https://a.com/x" := by
  refine ⟨?_, ?_, ?_⟩
  · intro u h
    unfold normalizeUrl
    rw [h]
  · intro u r h
    obtain ⟨hinv2, hhash2, hpath2⟩ := normRec_inv (parse_inv h)
    have hnu : normalizeUrl u = String.mk (urlToChars (normRec r)) := by
      unfold normalizeUrl
      rw [h]
    refine ⟨normRec r, ?_, hhash2, ?_⟩
    · rw [hnu]
      exact parse_urlToChars hinv2 hhash2 hpath2
    · obtain ⟨t, hpa⟩ := hpath2
      simp [hpa]
  · decide

/-- Witness for C6: concrete malformed and fragment-bearing inputs. -/
theorem C6_witness :
    parseURLChars "nota url".data = none ∧
    normalizeUrl "nota url" = "nota url" ∧
    normalizeUrl "https://a.com/x#foo" = normalizeUrl "https://a.com/x" :=
  ⟨by decide, C6_normalize_best_effort.1 "nota url" (by decide),
    C6_normalize_best_effort.2.2⟩

/-- C7: URL normalization is idempotent on every well-formed URL. -/
theorem C7_normalize_idempotent (u : String)
    (h : (parseURLChars u.data).isSome) :
    normalizeUrl (normalizeUrl u) = normalizeUrl u := by
  obtain ⟨r, hr⟩ := Option.isSome_iff_exists.mp h
  have hnu : normalizeUrl u = String.mk (urlToChars (normRec r)) := by
    unfold normalizeUrl
    rw [hr]
  rw [hnu]
  exact normalizeUrl_mk r (parse_inv hr)

/-- Witness for C7 at a concrete well-formed URL. -/
theorem C7_witness :
    (parseURLChars "https://a.com/x#foo".data).isSome = true ∧
    normalizeUrl (normalizeUrl "https://a.com/x#foo")
      = normalizeUrl "https://a.com/x#foo" :=
  ⟨by decide, C7_normalize_idempotent "https://a.com/x#foo" (by decide)⟩

/-! ### Crawl loop invariants -/

lemma crawlStep_state_processed (web : Web) (opts : Opts) (bo : String)
    (e : FrontierEntry) (rest : List FrontierEntry) (st : CrawlState) :
    (crawlStep web opts bo e rest st).state.processed ≤ st.processed + 1 := by
  simp only [crawlStep]
  split_ifs with h1 h2 h3
  · exact Nat.le_succ _
  · exact Nat.le_succ _
  · rcases hweb : web e.url with ⟨msg, pageUrl⟩ | ⟨msg⟩ | ⟨f, s, l⟩ <;>
      simp [hweb, StepOut.state]
  · rcases hweb : web e.url with ⟨msg, pageUrl⟩ | ⟨msg⟩ | ⟨f, s, l⟩ <;>
      simp [hweb, StepOut.state]

lemma setAdd_length_fresh {l : List String} {x : String}
    (h : l.contains x = false) : (setAdd l x).length = l.length + 1 := by
  unfold setAdd
  rw [if_neg (by simpa using h)]
  simp

lemma crawlStep_state_uv (web : Web) (opts : Opts) (bo : String)
    (e : FrontierEntry) (rest : List FrontierEntry) (st : CrawlState)
    (h : st.visited.length = st.processed) :
    (crawlStep web opts bo e rest st).state.visited.length
      = (crawlStep web opts bo e rest st).state.processed := by
  simp only [crawlStep]
  split_ifs with h1 h2 h3
  · exact h
  · exact h
  · have haux : (e.depth : Int) ≤ opts.maxDepth ∧
        normalizeUrl e.url ∉ st.visited := by simpa using h1
    have hcontains : st.visited.contains (normalizeUrl e.url) = false := by
      simpa using haux.2
    rcases hweb : web e.url with ⟨msg, pageUrl⟩ | ⟨msg⟩ | ⟨f, s, l⟩ <;>
      simp [hweb, StepOut.state, setAdd_length_fresh hcontains, h]
  · have haux : (e.depth : Int) ≤ opts.maxDepth ∧
        normalizeUrl e.url ∉ st.visited := by simpa using h1
    have hcontains : st.visited.contains (normalizeUrl e.url) = false := by
      simpa using haux.2
    rcases hweb : web e.url with ⟨msg, pageUrl⟩ | ⟨msg⟩ | ⟨f, s, l⟩ <;>
      simp [hweb, StepOut.state, setAdd_length_fresh hcontains, h]

lemma crawlStep_state_pageClose (web : Web) (opts : Opts) (bo : String)
    (e : FrontierEntry) (rest : List FrontierEntry) (st : CrawlState)
    (h : st.closed = st.opened) :
    (match crawlStep web opts bo e rest st with
     | .cont st2 => st2.closed = st2.opened
     | .crashed _ st2 => st2.opened = st2.closed + 1) := by
  simp only [crawlStep]
  split_ifs with h1 h2 h3
  · exact h
  · exact h
  · rcases hweb : web e.url with ⟨msg, pageUrl⟩ | ⟨msg⟩ | ⟨f, s, l⟩ <;>
      simp [hweb, h]
  · rcases hweb : web e.url with ⟨msg, pageUrl⟩ | ⟨msg⟩ | ⟨f, s, l⟩ <;>
      simp [hweb, h]

lemma setAdd_nodup {l : List String} {x : String} (h : l.Nodup) :
    (setAdd l x).Nodup := by
  unfold setAdd
  split
  · exact h
  rename_i hc
  have hx : x ∉ l := by
    intro hm
    exact hc (by simpa using hm)
  simp [List.nodup_append, h, hx]

lemma crawlStep_state_nodup (web : Web) (opts : Opts) (bo : String)
    (e : FrontierEntry) (rest : List FrontierEntry) (st : CrawlState)
    (h : st.visited.Nodup) :
    (crawlStep web opts bo e rest st).state.visited.Nodup := by
  simp only [crawlStep]
  split_ifs with h1 h2 h3
  · exact h
  · exact h
  · rcases hweb : web e.url with ⟨msg, pageUrl⟩ | ⟨msg⟩ | ⟨f, s, l⟩ <;>
      exact setAdd_nodup h
  · rcases hweb : web e.url with ⟨msg, pageUrl⟩ | ⟨msg⟩ | ⟨f, s, l⟩ <;>
      exact setAdd_nodup h

/-- Transfer of an invariant `Q` on states to a property `R` of the run
result, along any completing execution of the crawl loop. -/
lemma crawlLoop_run (web : Web) (opts : Opts) (bo : String)
    (Q : CrawlState → Prop) (R : RunResult → Prop)
    (hdone : ∀ st, Q st → R (.done st))
    (hstep : ∀ e rest st st2, Q st → st.processed < opts.maxPages →
      crawlStep web opts bo e rest st = .cont st2 → Q st2)
    (hcrash : ∀ e rest st m st2, Q st → st.processed < opts.maxPages →
      crawlStep web opts bo e rest st = .crashed m st2 → R (.crashed m st2)) :
    ∀ (fuel : Nat) (st : CrawlState) (r : RunResult),
      crawlLoop web opts bo fuel st = some r → Q st → R r := by
  intro fuel
  induction fuel with
  | zero =>
    intro st r h hQ
    rcases hq : st.queue with _ | ⟨e, rest⟩ <;> simp only [crawlLoop, hq] at h
    · cases Option.some.inj h
      exact hdone st hQ
    · split at h
      · cases Option.some.inj h
        exact hdone st hQ
      · exact absurd h (by simp)
  | succ n ih =>
    intro st r h hQ
    rcases hq : st.queue with _ | ⟨e, rest⟩ <;> simp only [crawlLoop, hq] at h
    · cases Option.some.inj h
      exact hdone st hQ
    · split at h
      · cases Option.some.inj h
        exact hdone st hQ
      · rename_i hge
        have hlt : st.processed < opts.maxPages := Nat.lt_of_not_le hge
        rcases hs : crawlStep web opts bo e rest st with st2 | ⟨m, st2⟩
        · rw [hs] at h
          exact ih st2 r h (hstep e rest st st2 hQ hlt hs)
        · rw [hs] at h
          cases Option.some.inj h
          exact hcrash e rest st m st2 hQ hlt hs

/-- With the budget already reached and the queue non-empty, the loop
returns at once with the state untouched. -/
lemma crawlLoop_halt (web : Web) (opts : Opts) (bo : String) (fuel : Nat)
    (st : CrawlState) (e : FrontierEntry) (rest : List FrontierEntry)
    (hq : st.queue = e :: rest) (h : opts.maxPages ≤ st.processed) :
    crawlLoop web opts bo fuel st = some (.done st) := by
  cases fuel <;> simp [crawlLoop, hq, h]

/-- C2: the processed counter never exceeds `maxPages` on any completing
run of the crawl loop; the loop halts as soon as the bound is reached
even with entries still queued; and in the fan-out scenario with
`maxPages = 1`, `maxDepth = 2` and a seed linking to three same-origin
pages, exactly one page record is produced while three entries remain
queued. -/
theorem C2_maxPages_bound :
    (∀ (web : Web) (opts : Opts) (bo : String) (fuel : Nat) (st : CrawlState)
       (r : RunResult), crawlLoop web opts bo fuel st = some r →
       st.processed ≤ opts.maxPages → r.state.processed ≤ opts.maxPages) ∧
    (∀ (web : Web) (opts : Opts) (bo : String) (fuel : Nat) (st : CrawlState)
       (e : FrontierEntry) (rest : List FrontierEntry), st.queue = e :: rest →
       opts.maxPages ≤ st.processed →
       crawlLoop web opts bo fuel st = some (.done st)) ∧
    (crawlLoop webFanOut { DEFAULTS with maxPages := 1, maxDepth := 2 }
       "https://a.com" 10 (initState "https://a.com/")).map
         (fun r => (r.state.pages.length, r.state.queue.length)) = some (1, 3) := by
  refine ⟨?_, ?_, by decide⟩
  · intro web opts bo fuel st r h hle
    refine crawlLoop_run web opts bo
      (fun s => s.processed ≤ opts.maxPages)
      (fun r2 => r2.state.processed ≤ opts.maxPages)
      (fun s hs => hs) ?_ ?_ fuel st r h hle
    · intro e rest s s2 hs hlt hstep
      have hb := crawlStep_state_processed web opts bo e rest s
      rw [hstep] at hb
      exact le_trans hb hlt
    · intro e rest s m s2 hs hlt hstep
      have hb := crawlStep_state_processed web opts bo e rest s
      rw [hstep] at hb
      exact le_trans hb hlt
  · intro web opts bo fuel st e rest hq h
    exact crawlLoop_halt web opts bo fuel st e rest hq h

/-- Witness for C2: the bound instantiated on the fan-out run, and the
early halt instantiated on a state whose budget is already spent. -/
theorem C2_witness :
    (RunResult.done ⟨["https://a.com/"],
        [⟨"https://a.com/", "https://a.com/", some 200, none,
          ["https://a.com/b", "https://a.com/c", "https://a.com/d"]⟩],
        [⟨"https://a.com/b", 1⟩, ⟨"https://a.com/c", 1⟩, ⟨"https://a.com/d", 1⟩],
        1, 1, 1⟩).state.processed
      ≤ ({ DEFAULTS with maxPages := 1, maxDepth := 2 } : Opts).maxPages ∧
    crawlLoop webTimeout DEFAULTS "https://a.com" 3
        ⟨[], [], [⟨"https://a.com/", 0⟩], 100, 0, 0⟩
      = some (.done ⟨[], [], [⟨"https://a.com/", 0⟩], 100, 0, 0⟩) :=
  ⟨C2_maxPages_bound.1 webFanOut { DEFAULTS with maxPages := 1, maxDepth := 2 }
      "https://a.com" 10 (initState "https://a.com/") _ (by decide) (by decide),
   C2_maxPages_bound.2.1 webTimeout DEFAULTS "https://a.com" 3
      ⟨[], [], [⟨"https://a.com/", 0⟩], 100, 0, 0⟩ ⟨"https://a.com/", 0⟩ []
      rfl (by decide)⟩

/-- C10: at the end of every successful run of `crawlSite`, the reported
`uniqueVisited` equals `processed` exactly: the visited-set insertion and
the processed increment happen together in the mark-and-count step and
nowhere else, and the dequeue filter makes every insertion fresh. -/
theorem C10_uniqueVisited_eq_processed (web : Web) (baseUrl : String)
    (maxDepth : Option Int) (fuel : Nat) (m : SiteModel)
    (h : crawlSite web baseUrl maxDepth fuel = some (.ok m)) :
    m.stats.uniqueVisited = m.stats.processed := by
  unfold crawlSite at h
  split at h
  · exact absurd (Option.some.inj h) (by simp)
  rename_i rb hrb
  split at h
  · exact absurd h (by simp)
  · rename_i st hloop
    have huv : st.visited.length = st.processed := by
      refine crawlLoop_run web (crawlOpts maxDepth) (String.mk (origin rb))
        (fun s => s.visited.length = s.processed)
        (fun r2 => match r2 with
          | .done s => s.visited.length = s.processed
          | .crashed _ _ => True)
        (fun s hs => hs) ?_ (fun _ _ _ _ _ _ _ _ => trivial)
        fuel (initState baseUrl) (.done st) hloop rfl
      intro e rest s s2 hs hlt hstep
      have hb := crawlStep_state_uv web (crawlOpts maxDepth)
        (String.mk (origin rb)) e rest s hs
      rw [hstep] at hb
      exact hb
    cases Except.ok.inj (Option.some.inj h)
    exact huv
  · exact absurd (Option.some.inj h) (by simp)

/-- Witness for C10 on the concrete timed-out run. -/
theorem C10_witness :
    ({ baseUrl := "https://a.com/", maxDepth := 1, maxPages := 100,
       pages := [⟨"https://a.com/", "https://a.com/", none,
         some "Timeout 30000ms exceeded.", []⟩],
       stats := ⟨1, 1⟩ } : SiteModel).stats.uniqueVisited
      = ({ baseUrl := "https://a.com/", maxDepth := 1, maxPages := 100,
           pages := [⟨"https://a.com/", "https://a.com/", none,
             some "Timeout 30000ms exceeded.", []⟩],
           stats := ⟨1, 1⟩ } : SiteModel).stats.processed :=
  C10_uniqueVisited_eq_processed webTimeout "https://a.com/" none 5 _ rfl

/-! ### Enqueue characterization (C1) -/

lemma enqueueChildren_eq_filter (opts : Opts) (bo : String) (visited : List String)
    (d : Nat) (ls : List String) :
    enqueueChildren opts bo visited d ls =
      (ls.filter (fun l => isCrawlable l &&
          !(opts.sameOriginOnly && !sameOrigin l bo) &&
          !(visited.contains (normalizeUrl l)))).map
        (fun l => FrontierEntry.mk l d) := by
  induction ls with
  | nil => rfl
  | cons x xs ih =>
    unfold enqueueChildren
    rw [List.filter_cons]
    by_cases hc : isCrawlable x
    · by_cases ho : (opts.sameOriginOnly && !sameOrigin x bo) = true
      · simp [hc, ho, ih]
      · by_cases hv : normalizeUrl x ∈ visited
        · simp [hc, ho, hv, ih]
        · simp [hc, ho, hv, ih]
    · simp [hc, ih]

/-- C1 is refuted: a discovered link that is crawlable, same-origin with
the seed and within the depth budget, but whose normalized form is
already in the visited set, is NOT pushed onto the frontier (the
resulting queue is empty); the visited check runs at enqueue too. -/
theorem C1_counterexample :
    isCrawlable "https://a.com/" = true ∧
    sameOrigin "https://a.com/" "https://a.com" = true ∧
    ((0 : Int) + 1 ≤ DEFAULTS.maxDepth) ∧
    crawlStep webSelf DEFAULTS "https://a.com" ⟨"https://a.com/", 0⟩ []
      (initState "https://a.com/")
      = .cont ⟨["https://a.com/"],
          [⟨"https://a.com/", "https://a.com/", some 200, none, ["https://a.com/"]⟩],
          [], 1, 1, 1⟩ :=
  ⟨by decide, by decide, by decide, by decide⟩

/-- C1 amended: in the enqueue step, when `depth+1 ≤ maxDepth`, a
discovered link that passes the scope policy is pushed at `depth+1` if
and only if its normalized form is not already in the visited set at that
moment (the set that already includes the page just marked); the visited
check runs at enqueue as well as at dequeue. -/
theorem C1_enqueue_not_visited (web : Web) (opts : Opts) (bo : String)
    (url : String) (depth : Nat) (rest : List FrontierEntry) (st : CrawlState)
    (finalUrl : String) (status : Option Nat) (links : List String)
    (hw : web url = .page finalUrl status links)
    (hfil : (decide ((depth : Int) > opts.maxDepth) ||
        st.visited.contains (normalizeUrl url)) = false)
    (horig : (opts.sameOriginOnly && !sameOrigin url bo) = false)
    (hbud : (depth : Int) + 1 ≤ opts.maxDepth) :
    crawlStep web opts bo ⟨url, depth⟩ rest st =
      .cont { st with
              queue := rest ++ (links.filter (fun l => isCrawlable l &&
                  !(opts.sameOriginOnly && !sameOrigin l bo) &&
                  !((setAdd st.visited (normalizeUrl url)).contains
                      (normalizeUrl l)))).map
                (fun l => FrontierEntry.mk l (depth + 1)),
              visited := setAdd st.visited (normalizeUrl url),
              processed := st.processed + 1,
              opened := st.opened + 1,
              closed := st.closed + 1,
              pages := st.pages ++ [⟨url, finalUrl, status, none, links⟩] } := by
  have haux : (depth : Int) ≤ opts.maxDepth ∧ normalizeUrl url ∉ st.visited := by
    simpa using hfil
  simp [crawlStep, hw, horig, hbud, enqueueChildren_eq_filter, haux.1, haux.2]

/-- Witness for the amended C1 on a seed whose self-link is filtered and
whose fresh link is pushed. -/
theorem C1_witness :
    crawlStep webCyclic DEFAULTS "https://a.com" ⟨"https://a.com/", 0⟩ []
        (initState "https://a.com/")
      = .cont { initState "https://a.com/" with
                queue := [] ++ ((["https://a.com/b", "https://a.com/c"].filter
                    (fun l => isCrawlable l &&
                      !(DEFAULTS.sameOriginOnly && !sameOrigin l "https://a.com") &&
                      !((setAdd (initState "https://a.com/").visited
                          (normalizeUrl "https://a.com/")).contains
                          (normalizeUrl l)))).map
                  (fun l => FrontierEntry.mk l (0 + 1))),
                visited := setAdd (initState "https://a.com/").visited
                  (normalizeUrl "https://a.com/"),
                processed := (initState "https://a.com/").processed + 1,
                opened := (initState "https://a.com/").opened + 1,
                closed := (initState "https://a.com/").closed + 1,
                pages := (initState "https://a.com/").pages ++
                  [⟨"https://a.com/", "https://a.com/", some 200, none,
                    ["https://a.com/b", "https://a.com/c"]⟩] } :=
  C1_enqueue_not_visited webCyclic DEFAULTS "https://a.com" "https://a.com/" 0 []
    (initState "https://a.com/") "https://a.com/" (some 200)
    ["https://a.com/b", "https://a.com/c"] rfl (by decide) (by decide) (by decide)

/-! ### Navigation failure isolation (C3) -/

/-- C3: when navigation of a dequeued URL fails, the step appends exactly
one degraded record (requested URL, best-effort final URL with fallback
to the requested URL, null status, the thrown message, no extraction),
closes the page and continues with the loop; a run whose seed navigation
times out still returns a site model normally, with no exception reaching
the caller. -/
theorem C3_navFail_degraded_record :
    (∀ (web : Web) (opts : Opts) (bo : String) (url : String) (depth : Nat)
       (rest : List FrontierEntry) (st : CrawlState) (msg pageUrl : String),
       web url = .navFail msg pageUrl →
       (decide ((depth : Int) > opts.maxDepth) ||
         st.visited.contains (normalizeUrl url)) = false →
       (opts.sameOriginOnly && !sameOrigin url bo) = false →
       crawlStep web opts bo ⟨url, depth⟩ rest st =
         .cont { st with queue := rest,
                         visited := setAdd st.visited (normalizeUrl url),
                         processed := st.processed + 1,
                         opened := st.opened + 1,
                         closed := st.closed + 1,
                         pages := st.pages ++
                           [⟨url, if pageUrl = "" then url else pageUrl,
                             none, some msg, []⟩] }) ∧
    crawlSite webTimeout "https://a.com/" none 5
      = some (.ok ⟨"https://a.com/", 1, 100,
          [⟨"https://a.com/", "https://a.com/", none,
            some "Timeout 30000ms exceeded.", []⟩], ⟨1, 1⟩⟩) ∧
    "Timeout 30000ms exceeded." ≠ "" := by
  refine ⟨?_, rfl, by decide⟩
  intro web opts bo url depth rest st msg pageUrl hw hfil horig
  have haux : (depth : Int) ≤ opts.maxDepth ∧ normalizeUrl url ∉ st.visited := by
    simpa using hfil
  simp [crawlStep, hw, horig, haux.1, haux.2]

/-- Witness for C3 on the timing-out seed. -/
theorem C3_witness :
    crawlStep webTimeout DEFAULTS "https://a.com" ⟨"https://a.com/", 0⟩ []
        (initState "https://a.com/")
      = .cont ⟨["https://a.com/"],
          [⟨"https://a.com/", "https://a.com/", none,
            some "Timeout 30000ms exceeded.", []⟩], [], 1, 1, 1⟩ := by
  have h := C3_navFail_degraded_record.1 webTimeout DEFAULTS "https://a.com"
    "https://a.com/" 0 [] (initState "https://a.com/")
    "Timeout 30000ms exceeded." "" rfl (by decide) (by decide)
  exact h

/-! ### Depth checked at dequeue (C5) -/

/-- C5: an entry whose depth exceeds `maxDepth` is discarded at dequeue
with no fetch, no record and no state change beyond the pop; and with
`maxDepth = 0` the seed is processed as the single page record while no
children are enqueued even though its extraction discovered links. -/
theorem C5_depth_check_at_dequeue :
    (∀ (web : Web) (opts : Opts) (bo : String) (e : FrontierEntry)
       (rest : List FrontierEntry) (st : CrawlState),
       (e.depth : Int) > opts.maxDepth →
       crawlStep web opts bo e rest st = .cont { st with queue := rest }) ∧
    (crawlStep webFanOut { DEFAULTS with maxDepth := 0 } "https://a.com"
       ⟨"https://a.com/", 0⟩ [] (initState "https://a.com/")
       = .cont ⟨["https://a.com/"],
           [⟨"https://a.com/", "https://a.com/", some 200, none,
             ["https://a.com/b", "https://a.com/c", "https://a.com/d"]⟩],
           [], 1, 1, 1⟩) ∧
    (crawlLoop webFanOut { DEFAULTS with maxDepth := 0 } "https://a.com" 5
       (initState "https://a.com/")
       = some (.done ⟨["https://a.com/"],
           [⟨"https://a.com/", "https://a.com/", some 200, none,
             ["https://a.com/b", "https://a.com/c", "https://a.com/d"]⟩],
           [], 1, 1, 1⟩)) := by
  refine ⟨?_, by decide, by decide⟩
  intro web opts bo e rest st h
  simp [crawlStep, h]

/-- Witness for C5 on an over-deep entry. -/
theorem C5_witness :
    crawlStep webFanOut DEFAULTS "https://a.com" ⟨"https://a.com/x", 5⟩ []
        (initState "https://a.com/")
      = .cont { initState "https://a.com/" with queue := [] } :=
  C5_depth_check_at_dequeue.1 webFanOut DEFAULTS "https://a.com"
    ⟨"https://a.com/x", 5⟩ [] (initState "https://a.com/") (by decide)

/-! ### Termination (C4) -/

/-- Linear measure on crawl states that strictly decreases at every loop
iteration when each page yields at most `L` links. -/
def loopMeasure (opts : Opts) (L : Nat) (st : CrawlState) : Nat :=
  (opts.maxPages - st.processed) * (L + 1) + st.queue.length

lemma enqueueChildren_length_le (opts : Opts) (bo : String) (visited : List String)
    (d : Nat) (ls : List String) :
    (enqueueChildren opts bo visited d ls).length ≤ ls.length := by
  induction ls with
  | nil => simp [enqueueChildren]
  | cons x xs ih =>
    unfold enqueueChildren
    split_ifs <;> simp only [List.length_cons] <;> omega

lemma crawlStep_measure (web : Web) (opts : Opts) (bo : String) (L : Nat)
    (hL : ∀ u f s l, web u = .page f s l → l.length ≤ L)
    (e : FrontierEntry) (rest : List FrontierEntry) (st : CrawlState)
    (hq : st.queue = e :: rest) (hlt : st.processed < opts.maxPages)
    (st2 : CrawlState) (hstep : crawlStep web opts bo e rest st = .cont st2) :
    loopMeasure opts L st2 < loopMeasure opts L st := by
  have ha : opts.maxPages - st.processed
      = (opts.maxPages - (st.processed + 1)) + 1 := by omega
  simp only [crawlStep] at hstep
  split_ifs at hstep with h1 h2 h3
  · cases hstep
    unfold loopMeasure
    rw [hq]
    exact Nat.add_lt_add_left (Nat.lt_succ_self _) _
  · cases hstep
    unfold loopMeasure
    rw [hq]
    exact Nat.add_lt_add_left (Nat.lt_succ_self _) _
  · rcases hweb : web e.url with ⟨msg, pageUrl⟩ | ⟨msg⟩ | ⟨f, s, l⟩ <;>
      rw [hweb] at hstep
    · cases hstep
      show (opts.maxPages - (st.processed + 1)) * (L + 1) + rest.length
          < (opts.maxPages - st.processed) * (L + 1) + st.queue.length
      rw [hq, ha, Nat.succ_mul]
      simp only [List.length_cons]
      omega
    · exact absurd hstep (by simp)
    · cases hstep
      have hcl : (enqueueChildren opts bo
          (setAdd st.visited (normalizeUrl e.url)) (e.depth + 1) l).length
          ≤ L :=
        le_trans (enqueueChildren_length_le opts bo _ _ l) (hL e.url f s l hweb)
      show (opts.maxPages - (st.processed + 1)) * (L + 1)
            + (rest ++ enqueueChildren opts bo
                (setAdd st.visited (normalizeUrl e.url)) (e.depth + 1) l).length
          < (opts.maxPages - st.processed) * (L + 1) + st.queue.length
      rw [hq, ha, Nat.succ_mul, List.length_append]
      simp only [List.length_cons, List.length_nil]
      omega
  · rcases hweb : web e.url with ⟨msg, pageUrl⟩ | ⟨msg⟩ | ⟨f, s, l⟩ <;>
      rw [hweb] at hstep
    · cases hstep
      show (opts.maxPages - (st.processed + 1)) * (L + 1) + rest.length
          < (opts.maxPages - st.processed) * (L + 1) + st.queue.length
      rw [hq, ha, Nat.succ_mul]
      simp only [List.length_cons]
      omega
    · exact absurd hstep (by simp)
    · cases hstep
      show (opts.maxPages - (st.processed + 1)) * (L + 1)
            + (rest ++ ([] : List FrontierEntry)).length
          < (opts.maxPages - st.processed) * (L + 1) + st.queue.length
      rw [hq, ha, Nat.succ_mul, List.length_append]
      simp only [List.length_cons, List.length_nil]
      omega

lemma crawlLoop_total (web : Web) (opts : Opts) (bo : String) (L : Nat)
    (hL : ∀ u f s l, web u = .page f s l → l.length ≤ L) :
    ∀ (n : Nat) (st : CrawlState), loopMeasure opts L st ≤ n →
      (crawlLoop web opts bo n st).isSome := by
  intro n
  induction n with
  | zero =>
    intro st h
    rcases hq : st.queue with _ | ⟨e, rest⟩
    · simp [crawlLoop, hq]
    · exfalso
      unfold loopMeasure at h
      rw [hq] at h
      simp at h
  | succ n ih =>
    intro st h
    rcases hq : st.queue with _ | ⟨e, rest⟩
    · simp [crawlLoop, hq]
    · by_cases hp : opts.maxPages ≤ st.processed
      · simp [crawlLoop, hq, hp]
      · have hlt := Nat.lt_of_not_le hp
        rcases hs : crawlStep web opts bo e rest st with st2 | ⟨m, st2⟩
        · have hdec := crawlStep_measure web opts bo L hL e rest st hq hlt st2 hs
          have hrec : (crawlLoop web opts bo n st2).isSome := ih st2 (by omega)
          simp only [crawlLoop, hq]
          rw [if_neg hp, hs]
          exact hrec
        · simp only [crawlLoop, hq]
          rw [if_neg hp, hs]
          simp

/-- C4: the crawl loop terminates on every page graph with a uniform
bound on the number of links per page (any finite page graph, cyclic ones
included), whatever the options — in particular regardless of
`maxDepth`; and along every completing run, the visited list stays
duplicate-free: a normalized URL enters the visited set at most once. -/
theorem C4_termination :
    (∀ (web : Web) (opts : Opts) (bo : String) (L : Nat),
       (∀ u f s l, web u = .page f s l → l.length ≤ L) →
       ∀ st : CrawlState, ∃ (n : Nat) (r : RunResult),
         crawlLoop web opts bo n st = some r) ∧
    (∀ (web : Web) (opts : Opts) (bo : String) (fuel : Nat) (st : CrawlState)
       (r : RunResult), crawlLoop web opts bo fuel st = some r →
       st.visited.Nodup → r.state.visited.Nodup) := by
  constructor
  · intro web opts bo L hL st
    have h := crawlLoop_total web opts bo L hL (loopMeasure opts L st) st
      (le_refl _)
    obtain ⟨r, hr⟩ := Option.isSome_iff_exists.mp h
    exact ⟨_, r, hr⟩
  · intro web opts bo fuel st r h hnd
    refine crawlLoop_run web opts bo (fun s => s.visited.Nodup)
      (fun r2 => r2.state.visited.Nodup) (fun s hs => hs) ?_ ?_ fuel st r h hnd
    · intro e rest s s2 hs hlt hstep
      have hb := crawlStep_state_nodup web opts bo e rest s hs
      rw [hstep] at hb
      exact hb
    · intro e rest s m s2 hs hlt hstep
      have hb := crawlStep_state_nodup web opts bo e rest s hs
      rw [hstep] at hb
      exact hb

/-- Witness for C4 on the cyclic two-level site. -/
theorem C4_witness :
    (∃ (n : Nat) (r : RunResult),
       crawlLoop webCyclic DEFAULTS "https://a.com" n (initState "https://a.com/")
         = some r) ∧
    (RunResult.done ⟨["https://a.com/", "https://a.com/b", "https://a.com/c"],
        [⟨"https://a.com/", "https://a.com/", some 200, none,
          ["https://a.com/b", "https://a.com/c"]⟩,
         ⟨"https://a.com/b", "https://a.com/b", some 200, none, ["https://a.com/"]⟩,
         ⟨"https://a.com/c", "https://a.com/c", some 200, none, ["https://a.com/"]⟩],
        [], 3, 3, 3⟩).state.visited.Nodup :=
  ⟨C4_termination.1 webCyclic DEFAULTS "https://a.com" 2
      (by
        intro u f s l hu
        unfold webCyclic at hu
        split at hu <;> cases hu <;> simp)
      (initState "https://a.com/"),
   C4_termination.2 webCyclic DEFAULTS "https://a.com" 10
      (initState "https://a.com/") _ (by decide) (by decide)⟩

/-! ### Page-resource closing (C9) -/

/-- C9 is refuted: when the in-page extraction throws, the exception
escapes the loop with the per-visit page still open — in the concrete
crashing run, one page was opened and none closed, and the run aborts
rather than continuing. -/
theorem C9_counterexample :
    crawlLoop webCrash DEFAULTS "https://a.com" 5 (initState "https://a.com/")
      = some (.crashed "Execution context was destroyed"
          ⟨["https://a.com/"], [], [], 1, 1, 0⟩) ∧
    (⟨["https://a.com/"], [], [], 1, 1, 0⟩ : CrawlState).opened
      ≠ (⟨["https://a.com/"], [], [], 1, 1, 0⟩ : CrawlState).closed :=
  ⟨by decide, by decide⟩

/-- C9 amended: the per-visit page is closed on the success path and on
the navigation-failure path — every run in which the loop exits normally
has all opened pages closed — while an exception from extraction or the
cookie read aborts the run with exactly that visit's page left open,
released only by the run-level browser teardown. -/
theorem C9_page_closing :
    (∀ (web : Web) (opts : Opts) (bo : String) (fuel : Nat) (st st2 : CrawlState),
       crawlLoop web opts bo fuel st = some (.done st2) →
       st.closed = st.opened → st2.closed = st2.opened) ∧
    (∀ (web : Web) (opts : Opts) (bo : String) (fuel : Nat) (st : CrawlState)
       (m : String) (st2 : CrawlState),
       crawlLoop web opts bo fuel st = some (.crashed m st2) →
       st.closed = st.opened → st2.opened = st2.closed + 1) := by
  have key : ∀ (web : Web) (opts : Opts) (bo : String) (fuel : Nat)
      (st : CrawlState) (r : RunResult), crawlLoop web opts bo fuel st = some r →
      st.closed = st.opened →
      (match r with
       | .done s => s.closed = s.opened
       | .crashed _ s => s.opened = s.closed + 1) := by
    intro web opts bo fuel st r h hQ
    refine crawlLoop_run web opts bo (fun s => s.closed = s.opened)
      (fun r2 => match r2 with
        | .done s => s.closed = s.opened
        | .crashed _ s => s.opened = s.closed + 1)
      (fun s hs => hs) ?_ ?_ fuel st r h hQ
    · intro e rest s s2 hs hlt hstep
      have hb := crawlStep_state_pageClose web opts bo e rest s hs
      rw [hstep] at hb
      exact hb
    · intro e rest s m s2 hs hlt hstep
      have hb := crawlStep_state_pageClose web opts bo e rest s hs
      rw [hstep] at hb
      exact hb
  exact ⟨fun web opts bo fuel st st2 h hQ => key web opts bo fuel st _ h hQ,
         fun web opts bo fuel st m st2 h hQ => key web opts bo fuel st _ h hQ⟩

/-- Witness for the amended C9 on a completed run and on a crashed run. -/
theorem C9_witness :
    (⟨["https://a.com/"],
       [⟨"https://a.com/", "https://a.com/", none,
         some "Timeout 30000ms exceeded.", []⟩], [], 1, 1, 1⟩ : CrawlState).closed
      = (⟨["https://a.com/"],
          [⟨"https://a.com/", "https://a.com/", none,
            some "Timeout 30000ms exceeded.", []⟩], [], 1, 1, 1⟩ : CrawlState).opened ∧
    (⟨["https://a.com/"], [], [], 1, 1, 0⟩ : CrawlState).opened
      = (⟨["https://a.com/"], [], [], 1, 1, 0⟩ : CrawlState).closed + 1 :=
  ⟨C9_page_closing.1 webTimeout DEFAULTS "https://a.com" 5
      (initState "https://a.com/") _ (by decide) rfl,
   C9_page_closing.2 webCrash DEFAULTS "https://a.com" 5
      (initState "https://a.com/") "Execution context was destroyed" _
      (by decide) rfl⟩

/-! ### Transport shim validation (C8) -/

/-- C8 is refuted: a negative depth override passes validation in both
handlers and is handed to the crawl engine rather than rejected with a
client error. -/
theorem C8_counterexample :
    getCrawlValidate (some "https://a.com") (some "-3")
      = .ok ("https://a.com", some (-3)) ∧
    postCrawlValidate (some (.str "https://a.com")) (some (.num (-3)))
      = .ok ("https://a.com", some (-3)) ∧
    ((-3 : Int) < 0) :=
  ⟨rfl, rfl, by decide⟩

/-- C8 amended: the handlers validate that a seed URL is present (a
truthy string) and that the depth override, if given, is merely numeric —
the GET handler rejects only when `parseInt` yields `NaN` (negative
values are accepted, non-integer strings are truncated), and the POST
handler rejects only non-number types (negative and fractional numbers
are accepted); in every other case the pair is handed to the engine. -/
theorem C8_validation_numeric_only :
    (∀ r, getCrawlValidate none r
       = .error "baseurl query parameter is required and must be a string") ∧
    (∀ b s, b ≠ "" → parseIntJS s = none →
       getCrawlValidate (some b) (some s)
         = .error "maxdepth, if provided, must be a number") ∧
    (∀ b s n, b ≠ "" → parseIntJS s = some n →
       getCrawlValidate (some b) (some s) = .ok (b, some n)) ∧
    (∀ d, postCrawlValidate none d
       = .error "baseurl is required and must be a string") ∧
    (∀ b q, b ≠ "" →
       postCrawlValidate (some (.str b)) (some (.num q)) = .ok (b, some q)) ∧
    (∀ b v, b ≠ "" → (∀ q, v ≠ JsVal.num q) →
       postCrawlValidate (some (.str b)) (some v)
         = .error "maxdepth, if provided, must be a number") := by
  refine ⟨fun r => rfl, ?_, ?_, fun d => rfl, ?_, ?_⟩
  · intro b s hb hs
    simp [getCrawlValidate, hb, hs]
  · intro b s n hb hs
    simp [getCrawlValidate, hb, hs]
  · intro b q hb
    simp [postCrawlValidate, hb]
  · intro b v hb hv
    cases v with
    | str s => simp [postCrawlValidate, hb]
    | num q => exact absurd rfl (hv q)
    | boolean bb => simp [postCrawlValidate, hb]
    | null => simp [postCrawlValidate, hb]

/-- Witness for the amended C8 at concrete requests. -/
theorem C8_witness :
    getCrawlValidate none (some "1")
      = .error "baseurl query parameter is required and must be a string" ∧
    getCrawlValidate (some "https://a.com") (some "abc")
      = .error "maxdepth, if provided, must be a number" ∧
    getCrawlValidate (some "https://a.com") (some "2")
      = .ok ("https://a.com", some 2) ∧
    postCrawlValidate none none
      = .error "baseurl is required and must be a string" ∧
    postCrawlValidate (some (.str "https://a.com")) (some (.num (3 / 2)))
      = .ok ("https://a.com", some (3 / 2)) ∧
    postCrawlValidate (some (.str "https://a.com")) (some (.str "2"))
      = .error "maxdepth, if provided, must be a number" :=
  ⟨C8_validation_numeric_only.1 (some "1"),
   C8_validation_numeric_only.2.1 "https://a.com" "abc" (by decide) (by decide),
   C8_validation_numeric_only.2.2.1 "https://a.com" "2" 2 (by decide) (by decide),
   C8_validation_numeric_only.2.2.2.1 none,
   C8_validation_numeric_only.2.2.2.2.1 "https://a.com" (3 / 2) (by decide),
   C8_validation_numeric_only.2.2.2.2.2 "https://a.com" (.str "2") (by decide)
     (by intro q h; cases h)⟩

end SiteCrawler
